import Mathlib

set_option linter.unusedVariables false
set_option linter.unnecessarySeqFocus false

/-!
Verification of the download/consolidation pipeline of `descarga.py`
(excel-reports-processor).

The embedding models the functions of `src/descarga.py` over an explicit
environment: each retry attempt of `descargar_archivo` is driven by a
`FetchEnv` value describing what the network, the lock file and the
filesystem do on that attempt; the function itself is the faithful
translation of the Python control flow (retry loop, exception handlers,
temp-file cleanup, atomic rename).  File contents are byte lists, delays
are rationals, and every run produces an event trace from which request
counts, sleeps and lock-held intervals are read off.
-/

namespace Descarga

/-- File contents: a list of bytes. -/
abbrev Content := List Nat

/-- What the network does on one attempt of `descargar_archivo`
(descarga.py lines 262-305).
* `connError is5xx`: `session.get`/`raise_for_status` raises a
  `requests.exceptions.RequestException`; `is5xx` records whether
  `str(e)` contains "502"/"503"/"504" (descarga.py line 346).
* `status401`: the response has status code 401 (line 268).
* `streamError written is5xx`: the body streaming loop raises a
  `RequestException` after `written` bytes reached the temp file.
* `fullBody cl bytes`: the body streams completely; the advertised
  `content-length` is `cl` (0 when the header is absent) and the bytes
  written to the temp file are `bytes`.
* `unexpected`: a non-`RequestException`, non-`PermissionError`
  exception is raised after the response is obtained
  (caught by the generic `except Exception` handler, line 354). -/
inductive NetResult where
  | connError (is5xx : Bool)
  | status401
  | streamError (written : Content) (is5xx : Bool)
  | fullBody (contentLength : Nat) (bytes : Content)
  | unexpected
deriving DecidableEq, Repr

/-- Environment of one retry attempt:
* `lockOk`: the lock file `output_path + ".lock"` is acquired within the
  wait timeout (stale-lock eviction and the poll loop of `file_lock`,
  descarga.py lines 186-221, are abstracted into this outcome; on
  timeout `file_lock` raises `IOError`, caught by the generic handler).
* `net`: the network outcome of the attempt.
* `renameBusy`: `os.replace` raises an `OSError` with `errno.EACCES`
  (destination held open by another process, line 314).
* `jitter`: the value drawn by `random.uniform(0, 1)` (line 342).
* `extra5xx`: the value drawn by `random.uniform(5, 15)` (line 347). -/
structure FetchEnv where
  lockOk : Bool
  net : NetResult
  renameBusy : Bool
  jitter : ℚ
  extra5xx : ℚ
deriving DecidableEq, Repr

/-- Observable events of one `descargar_archivo` run, in order. -/
inductive Ev where
  | lockAcquire
  | httpGet
  | lockRelease
  | lockTimeout
  | tempWrite (bytes : Content)
  | tempRemove
  | rename (bytes : Content)
  | sleep (d : ℚ)
deriving DecidableEq, Repr

/-- Filesystem/trace state threaded through the retry loop. -/
structure FetchState where
  dest : Option Content
  temp : Option Content
  events : List Ev
deriving DecidableEq, Repr

/-- `retries = 5` (descarga.py line 180). -/
def retries : Nat := 5

/-- `retry_delay = 5` seconds (descarga.py line 181). -/
def retry_delay : ℚ := 5

/-- Backoff slept before the next attempt after a transient
`RequestException`: `(retry_delay * (2 ** attempt)) + jitter`, plus
`random.uniform(5, 15)` when `str(e)` mentions a 5xx status
(descarga.py lines 341-351). -/
def backoff (attempt : Nat) (jitter extra : ℚ) (is5xx : Bool) : ℚ :=
  retry_delay * 2 ^ attempt + jitter + (if is5xx then extra else 0)

/-- `if os.path.exists(temp_file_path): os.remove(temp_file_path)`
(descarga.py lines 334-338 and 358-362). -/
def cleanTemp (s : FetchState) : FetchState :=
  match s.temp with
  | none => s
  | some _ => ⟨s.dest, none, s.events ++ [Ev.tempRemove]⟩

/-- The retry loop `for attempt in range(retries)` of `descargar_archivo`
(descarga.py lines 238-371).  `envs attempt` scripts the environment of
each attempt; `fuel` counts the attempts remaining (initially `retries`).
Control flow per attempt:
* lock acquisition fails (timeout `IOError`) → generic handler: remove
  the temp file if present, return `False`;
* the lock is held only around `session.get` and the status check (the
  `with file_lock(...)` block, lines 260-271) and is released when that
  block exits, before the body is streamed to the temp file;
* a 401 raises `PermissionError` → handler breaks out of the loop and
  the function returns `False` (lines 268-270, 322-326);
* a `RequestException` (connection error, streaming error, or the size
  mismatch raised at line 305) → remove the temp file, and when
  `attempt < retries - 1` sleep the backoff and continue, otherwise
  fall out of the loop returning `False`;
* `os.replace` hitting `errno.EACCES` → `time.sleep(1)` then `continue`
  (lines 313-319; note: the temp file is not removed on this path and
  the 1-second sleep happens even on the last attempt);
* otherwise `os.replace(temp_file_path, output_path)` commits the fully
  written, size-verified temp file and the function returns `True`. -/
def fetchLoop (envs : Nat → FetchEnv) : Nat → Nat → FetchState → Bool × FetchState
  | _, 0, s => (false, s)
  | attempt, fuel + 1, s =>
    let e := envs attempt
    match e.lockOk, e.net with
    | false, _ =>
      (false, cleanTemp ⟨s.dest, s.temp, s.events ++ [Ev.lockTimeout]⟩)
    | true, NetResult.status401 =>
      (false, ⟨s.dest, s.temp,
        s.events ++ [Ev.lockAcquire, Ev.httpGet] ++ [Ev.lockRelease]⟩)
    | true, NetResult.unexpected =>
      (false, cleanTemp ⟨s.dest, s.temp,
        s.events ++ [Ev.lockAcquire, Ev.httpGet] ++ [Ev.lockRelease]⟩)
    | true, NetResult.connError is5xx =>
      let s2 := cleanTemp ⟨s.dest, s.temp,
        s.events ++ [Ev.lockAcquire, Ev.httpGet] ++ [Ev.lockRelease]⟩
      if attempt < retries - 1 then
        fetchLoop envs (attempt + 1) fuel
          ⟨s2.dest, s2.temp, s2.events ++ [Ev.sleep (backoff attempt e.jitter e.extra5xx is5xx)]⟩
      else
        (false, s2)
    | true, NetResult.streamError written is5xx =>
      let s2 := cleanTemp ⟨s.dest, some written,
        s.events ++ [Ev.lockAcquire, Ev.httpGet] ++ [Ev.lockRelease, Ev.tempWrite written]⟩
      if attempt < retries - 1 then
        fetchLoop envs (attempt + 1) fuel
          ⟨s2.dest, s2.temp, s2.events ++ [Ev.sleep (backoff attempt e.jitter e.extra5xx is5xx)]⟩
      else
        (false, s2)
    | true, NetResult.fullBody cl bytes =>
      let s2 : FetchState := ⟨s.dest, some bytes,
        s.events ++ [Ev.lockAcquire, Ev.httpGet] ++ [Ev.lockRelease, Ev.tempWrite bytes]⟩
      if 0 < cl ∧ bytes.length ≠ cl then
        let s3 := cleanTemp s2
        if attempt < retries - 1 then
          fetchLoop envs (attempt + 1) fuel
            ⟨s3.dest, s3.temp, s3.events ++ [Ev.sleep (backoff attempt e.jitter e.extra5xx false)]⟩
        else
          (false, s3)
      else
        match e.renameBusy with
        | true =>
          fetchLoop envs (attempt + 1) fuel ⟨s2.dest, s2.temp, s2.events ++ [Ev.sleep 1]⟩
        | false =>
          (true, ⟨some bytes, none, s2.events ++ [Ev.rename bytes]⟩)

/-- `descargar_archivo` (descarga.py lines 149-371): short-circuits to
success when the destination exists and `overwrite` is false (line 164),
otherwise runs the retry loop.  Returns the success flag and the final
filesystem/trace state. -/
def descargar_archivo (overwrite : Bool) (initDest : Option Content)
    (envs : Nat → FetchEnv) : Bool × FetchState :=
  if initDest.isSome ∧ overwrite = false then
    (true, ⟨initDest, none, []⟩)
  else
    fetchLoop envs 0 retries ⟨initDest, none, []⟩

/-- Number of HTTP requests issued in a trace. -/
def countGets (evs : List Ev) : Nat :=
  (evs.filter fun e => match e with | Ev.httpGet => true | _ => false).length

/-- The sequence of slept delays in a trace. -/
def sleepsOf (evs : List Ev) : List ℚ :=
  evs.filterMap fun e => match e with | Ev.sleep d => some d | _ => none

/-- The bodies committed to the destination by rename events in a trace. -/
def renamesOf (evs : List Ev) : List Content :=
  evs.filterMap fun e => match e with | Ev.rename b => some b | _ => none

/-- `true` iff every temp-file write and every rename in the trace
happens while the lock is held (`n` = locks currently held). -/
def writesLocked : List Ev → Nat → Bool
  | [], _ => true
  | Ev.lockAcquire :: es, n => writesLocked es (n + 1)
  | Ev.lockRelease :: es, n => writesLocked es (n - 1)
  | Ev.tempWrite _ :: es, n => decide (0 < n) && writesLocked es n
  | Ev.rename _ :: es, n => decide (0 < n) && writesLocked es n
  | _ :: es, n => writesLocked es n

/-! ## Task planner and batch orchestration (descarga.py lines 55-148, 372-575) -/

/-- `anios` (descarga.py line 130). -/
def anios : List Nat := [2025, 2024, 2023, 2022, 2021, 2020, 2019, 2018]

/-- `estados_tramite` (descarga.py line 131). -/
def estados_tramite : List String := ["A", "P", "B", "R", "D", "E", "N"]

/-- `tipos_tramite` of `crear_carpetas` (descarga.py line 65): output
folders exist only for categories 58 (CCM) and 57 (PRR). -/
def tipos_tramite : List (Nat × String) := [(58, "CCM"), (57, "PRR")]

/-- `crear_carpetas` (descarga.py lines 55-71): category id → folder. -/
def crear_carpetas : List (Nat × String) :=
  tipos_tramite.map fun tn => (tn.1, "descargas/" ++ tn.2)

/-- The cross product of years and status codes (years outer loop,
statuses inner loop, descarga.py lines 144-147); a download task is
identified by `(anio, estado)`. -/
def tareas : List (Nat × String) :=
  anios.flatMap fun anio => estados_tramite.map fun estado => (anio, estado)

/-- `generar_urls_por_partes` (descarga.py lines 122-148): each category
maps to the same year x status cross product. -/
def generar_urls_por_partes : List (Nat × List (Nat × String)) :=
  [58, 57, 317, 55].map fun tipo => (tipo, tareas)

/-- Destination file name `f"{anio}_{estado}.csv"` (descarga.py line 397). -/
def nombreArchivo (anio : Nat) (estado : String) : String :=
  toString anio ++ "_" ++ estado ++ ".csv"

/-- `os.path.basename`: the part after the last path separator,
implemented over the character list so it evaluates in the kernel. -/
def basename (p : String) : String :=
  ⟨(p.data.reverse.takeWhile fun c => c ≠ '/').reverse⟩

/-- `str.startswith('LM')` (descarga.py line 1084), implemented over
the character list so it evaluates in the kernel. -/
def startsWithLM (s : String) : Bool :=
  match s.data with
  | 'L' :: 'M' :: _ => true
  | _ => false

/-- Per-task environment for a batch: the pre-existing destination
content (if any) and the per-attempt fetch environment. -/
structure TaskWorld where
  dest0 : Option Content
  envs : Nat → FetchEnv

/-- Result of `descargar_en_paralelo`: succeeded destination paths (in
task order), emitted progress values, total HTTP requests issued. -/
structure ParallelResult where
  downloaded : List String
  progress : List ℚ
  gets : Nat
deriving Repr

/-- `descargar_en_paralelo` (descarga.py lines 372-423): submits one
`descargar_archivo` per task — with `overwrite=True` hardcoded (line
401) — collects the successes in task order, and after each completed
task emits `(completed_files / total_files) * 80` (line 412).  In the
code `future.result()` is consumed in submission order, so the emission
order is the task order; the model runs each task on its own
`TaskWorld`, mirroring the independence of the thread-pool futures. -/
def descargar_en_paralelo (tasks : List (Nat × String)) (folder : String)
    (world : Nat → TaskWorld) : ParallelResult :=
  let n := tasks.length
  let runs := (List.range n).map fun i =>
    let t := tasks.getD i (0, "")
    let r := descargar_archivo true (world i).dest0 (world i).envs
    (folder ++ "/" ++ nombreArchivo t.1 t.2, r.1, countGets r.2.events)
  ⟨(runs.filter fun r => r.2.1).map fun r => r.1,
   (List.range n).map fun i => ((i + 1 : ℚ) / n) * 80,
   (runs.map fun r => r.2.2).sum⟩

/-! ## Consolidation (descarga.py lines 1054-1118) -/

/-- A parsed CSV row: only the canonical identifier column matters to
the claims. -/
structure Row where
  numeroTramite : String
deriving DecidableEq, Repr

/-- A consolidated row: source row plus the `ARCHIVO_ORIGEN` provenance
column (descarga.py line 1089). -/
structure CRow where
  numeroTramite : String
  archivo_origen : String
deriving DecidableEq, Repr

/-- Rows of one partition surviving the
`df['NumeroTramite'].str.startswith('LM')` filter (line 1084), tagged
with `os.path.basename(archivo)` (line 1089). -/
def lmRows (f : String) (rows : List Row) : List CRow :=
  (rows.filter fun r => startsWithLM r.numeroTramite).map
    fun r => ⟨r.numeroTramite, basename f⟩

/-- Result of a consolidation run: the written dataset (`none` when no
output file is created or the write fails) and the emitted progress. -/
structure ConsolResult where
  output : Option (List CRow)
  progress : List ℚ
deriving Repr

/-- `consolidar_archivos_descargados` (descarga.py lines 1054-1118).
`parse f = none` models `pd.read_csv` (or the `NumeroTramite` column
access) raising for file `f` — that file is skipped (`continue`, line
1097) and no progress is emitted for it; `parse f = some rows` models a
successful parse.  The per-file progress is
`base_progress + (index + 1) / total_files * progress_weight` (line
1092), emitted only for successfully processed files.  `writeOk` models
whether `os.makedirs` + `DataFrame.to_csv` (lines 1106-1112) succeed;
on failure the exception is caught (line 1116) and the function still
returns normally.  Note the guard at line 1099 is `if not dataframes:`
— a successfully parsed file whose rows are all filtered out still
contributes an (empty) dataframe, so an output file is written. -/
def consolidar_archivos_descargados (files : List String)
    (parse : String → Option (List Row)) (writeOk : Bool)
    (base weight : ℚ) : ConsolResult :=
  if files.isEmpty then ⟨none, []⟩
  else
    let n := files.length
    let steps := (List.range n).map fun i =>
      let f := files.getD i ""
      match parse f with
      | none => ((none : Option (List CRow)), (none : Option ℚ))
      | some rows => (some (lmRows f rows), some (base + ((i + 1 : ℚ) / n) * weight))
    let dataframes := steps.filterMap fun st => st.1
    let progress := steps.filterMap fun st => st.2
    if dataframes.isEmpty then ⟨none, progress⟩
    else ⟨if writeOk then some dataframes.flatten else none, progress⟩

/-! ## Batch entry point (descarga.py lines 424-575, regular
download-and-consolidate path, `download_option='all'`) -/

/-- `module_name_to_id` (descarga.py line 439). -/
def module_name_to_id : List (String × Nat) := [("CCM", 58), ("PRR", 57)]

/-- Keep the entries of an id-keyed association list whose id is the id
of a selected module name (descarga.py lines 445-446 and 499). -/
def filterSelected {β : Type} (names : List String) (l : List (Nat × β)) : List (Nat × β) :=
  l.filter fun tb => names.any fun nm => module_name_to_id.lookup nm == some tb.1

/-- The download loop `for tipo, urls in urls_por_partes.items():`
(descarga.py lines 514-543, `'all'` branch): looks up
`folders[tipo]` — a `KeyError` (modeled as `Except.error tipo`) when
the category has no created folder — and runs `descargar_en_paralelo`.
Accumulates per-category downloaded files, progress and request
counts. -/
def download_phase (folders : List (Nat × String)) (worlds : Nat → Nat → TaskWorld) :
    List (Nat × List (Nat × String)) →
    Except Nat (List (Nat × List String) × List ℚ × Nat)
  | [] => Except.ok ([], [], 0)
  | tu :: rest =>
    match folders.lookup tu.1 with
    | none => Except.error tu.1
    | some folder =>
      let r := descargar_en_paralelo tu.2 folder (worlds tu.1)
      match download_phase folders worlds rest with
      | Except.error t => Except.error t
      | Except.ok acc =>
        Except.ok ((tu.1, r.downloaded) :: acc.1, r.progress ++ acc.2.1, r.gets + acc.2.2)

/-- The consolidation loop `for tipo, folder in folders.items():`
(descarga.py lines 550-567): consolidates each category's downloaded
files into `consolidado_total_{folder_name}.csv` with
`base_progress=80, progress_weight=20`. -/
def consolidation_phase (downloaded : List (Nat × List String))
    (parse : String → Option (List Row)) (writeOk : Bool) :
    List (Nat × String) → List (String × Option (List CRow)) × List ℚ
  | [] => ([], [])
  | tf :: rest =>
    let folder := tf.2
    let output_file := folder ++ "/consolidado_total_" ++ basename folder ++ ".csv"
    let files := (downloaded.lookup tf.1).getD []
    let r := consolidar_archivos_descargados files parse writeOk 80 20
    let acc := consolidation_phase downloaded parse writeOk rest
    ((output_file, r.output) :: acc.1, r.progress ++ acc.2)

/-- Overall result of `descargar_y_consolidar`. -/
structure BatchResult where
  /-- the returned value: `some b` for `return consolidation_success`,
  `none` for the bare `return` when no module is selected (line 450) -/
  success : Option Bool
  progress : List ℚ
  gets : Nat
  downloaded : List (Nat × List String)
  outputs : List (String × Option (List CRow))

/-- `descargar_y_consolidar` (descarga.py lines 424-575), regular
(`download_option='all'`) path.  `selected = some names` models
`selected_modules` with exactly `names` mapped to `True`; `none` models
`selected_modules=None` (no filter).  The `overwrite` parameter is
accepted but — exactly as in the code — never consulted: every fetch is
issued with `overwrite=True` (line 401).  In the code
`consolidation_success` is set to `False` only when
`consolidar_archivos_descargados` raises (line 564); that function
catches all its internal errors (read errors per file, empty input,
write failure) and returns normally, which the model reflects by the
consolidation phase being total — hence the final result is
`some true` whenever the batch completes. -/
def descargar_y_consolidar (selected : Option (List String)) (overwrite : Bool)
    (worlds : Nat → Nat → TaskWorld) (parse : String → Option (List Row))
    (writeOk : Bool) : Except Nat BatchResult :=
  let folders0 := crear_carpetas
  let folders := match selected with
    | none => folders0
    | some names => filterSelected names folders0
  if selected.isSome ∧ folders.isEmpty then
    Except.ok ⟨none, [], 0, [], []⟩
  else
    let urls := match selected with
      | none => generar_urls_por_partes
      | some names => filterSelected names generar_urls_por_partes
    match download_phase folders worlds urls with
    | Except.error t => Except.error t
    | Except.ok dl =>
      let cons := consolidation_phase dl.1 parse writeOk folders
      Except.ok ⟨some true, dl.2.1 ++ cons.2, dl.2.2, dl.1, cons.1⟩

/-! ## Derived attempt classifications (read off the code's handlers) -/

/-- The attempt fails with a `requests.exceptions.RequestException`:
connection error, mid-stream error, or the size-mismatch raised at
descarga.py line 305 — exactly the class retried with exponential
backoff (lines 328-352). -/
def isTransientReq (e : FetchEnv) : Bool :=
  match e.net with
  | NetResult.connError _ => true
  | NetResult.streamError _ _ => true
  | NetResult.fullBody cl bytes => decide (0 < cl) && decide (bytes.length ≠ cl)
  | _ => false

/-- Whether the transient failure's message carries a 5xx status
(descarga.py line 346); the size-mismatch message does not. -/
def transient5xx (e : FetchEnv) : Bool :=
  match e.net with
  | NetResult.connError b => b
  | NetResult.streamError _ b => b
  | _ => false

/-- The attempt streams and verifies a full body but `os.replace` hits
`errno.EACCES` (descarga.py lines 313-319): retried after a fixed
1-second sleep. -/
def renamePassB (e : FetchEnv) : Bool :=
  match e.net with
  | NetResult.fullBody cl bytes =>
    !(decide (0 < cl) && decide (bytes.length ≠ cl)) && e.renameBusy
  | _ => false

/-- The attempt neither returns nor breaks: control continues to the
next iteration of the retry loop. -/
def continuesB (e : FetchEnv) : Bool :=
  e.lockOk && (isTransientReq e || renamePassB e)

/-- The delay slept by a continuing attempt before the next one. -/
def sleepOf (attempt : Nat) (e : FetchEnv) : ℚ :=
  if isTransientReq e then backoff attempt e.jitter e.extra5xx (transient5xx e) else 1

/-- State after one continuing attempt of the retry loop (the branches
of `fetchLoop` whose control flow reaches the next iteration). -/
def attemptState (attempt : Nat) (e : FetchEnv) (s : FetchState) : FetchState :=
  match e.net with
  | NetResult.connError is5xx =>
    let s2 := cleanTemp ⟨s.dest, s.temp,
      s.events ++ [Ev.lockAcquire, Ev.httpGet] ++ [Ev.lockRelease]⟩
    ⟨s2.dest, s2.temp, s2.events ++ [Ev.sleep (backoff attempt e.jitter e.extra5xx is5xx)]⟩
  | NetResult.streamError written is5xx =>
    let s2 := cleanTemp ⟨s.dest, some written,
      s.events ++ [Ev.lockAcquire, Ev.httpGet] ++ [Ev.lockRelease, Ev.tempWrite written]⟩
    ⟨s2.dest, s2.temp, s2.events ++ [Ev.sleep (backoff attempt e.jitter e.extra5xx is5xx)]⟩
  | NetResult.fullBody cl bytes =>
    let s2 : FetchState := ⟨s.dest, some bytes,
      s.events ++ [Ev.lockAcquire, Ev.httpGet] ++ [Ev.lockRelease, Ev.tempWrite bytes]⟩
    if 0 < cl ∧ bytes.length ≠ cl then
      let s3 := cleanTemp s2
      ⟨s3.dest, s3.temp, s3.events ++ [Ev.sleep (backoff attempt e.jitter e.extra5xx false)]⟩
    else
      ⟨s2.dest, s2.temp, s2.events ++ [Ev.sleep 1]⟩
  | _ => s

/-- State reached after the first `k` attempts all continued. -/
def iterState (envs : Nat → FetchEnv) (s0 : FetchState) : Nat → FetchState
  | 0 => s0
  | k + 1 => attemptState k (envs k) (iterState envs s0 k)

/-! ## Concrete environments used in the closed evaluations -/

/-- A fully successful attempt: content-length 2, body `[7, 8]`. -/
def envOk : FetchEnv := ⟨true, NetResult.fullBody 2 [7, 8], false, 0, 0⟩

/-- A transient connection failure (not a 5xx). -/
def envFail : FetchEnv := ⟨true, NetResult.connError false, false, 0, 0⟩

/-- A 5xx connection failure with jitter 1/2 and extra delay 6. -/
def env5xx : FetchEnv := ⟨true, NetResult.connError true, false, 1/2, 6⟩

/-- A fully streamed, size-verified body whose commit rename hits
`errno.EACCES`. -/
def envBusy : FetchEnv := ⟨true, NetResult.fullBody 2 [7, 8], true, 0, 0⟩

/-- A 401 Unauthorized response. -/
def env401 : FetchEnv := ⟨true, NetResult.status401, false, 0, 0⟩

/-- Rename contention on the first attempt, then success. -/
def envsBusyThenOk : Nat → FetchEnv := fun a => if a = 0 then envBusy else envOk

/-- A task whose destination does not exist and whose attempts succeed. -/
def worldOk : TaskWorld := ⟨none, fun _ => envOk⟩

/-- A task whose destination already exists and whose attempts succeed. -/
def worldExists : TaskWorld := ⟨some [1], fun _ => envOk⟩

/-- A task all of whose attempts fail with a transient error. -/
def worldFail : TaskWorld := ⟨none, fun _ => envFail⟩

/-- Per-file rows-or-none view of a consolidation source: `none` when
the file fails to parse, otherwise its filtered, provenance-tagged
rows. -/
def blockOf (parse : String → Option (List Row)) (f : String) : List CRow :=
  match parse f with
  | none => []
  | some rows => lmRows f rows

/-- The result a single-module batch over category `tipo` in `folder`
produces (the value `descargar_y_consolidar` computes when exactly that
module is selected); the stray `++ []` mirrors the accumulator base of
the download/consolidation folds. -/
def batchSingle (tipo : Nat) (folder : String) (worlds : Nat → Nat → TaskWorld)
    (parse : String → Option (List Row)) (wk : Bool) : BatchResult :=
  ⟨some true,
   ((descargar_en_paralelo tareas folder (worlds tipo)).progress ++ []) ++
     ((consolidar_archivos_descargados
        (descargar_en_paralelo tareas folder (worlds tipo)).downloaded parse wk 80 20).progress
       ++ []),
   (descargar_en_paralelo tareas folder (worlds tipo)).gets + 0,
   [(tipo, (descargar_en_paralelo tareas folder (worlds tipo)).downloaded)],
   [(folder ++ "/consolidado_total_" ++ basename folder ++ ".csv",
     (consolidar_archivos_descargados
        (descargar_en_paralelo tareas folder (worlds tipo)).downloaded parse wk 80 20).output)]⟩

/-- The result a two-module (CCM and PRR) batch produces. -/
def batchDouble (worlds : Nat → Nat → TaskWorld)
    (parse : String → Option (List Row)) (wk : Bool) : BatchResult :=
  ⟨some true,
   ((descargar_en_paralelo tareas "descargas/CCM" (worlds 58)).progress ++
     ((descargar_en_paralelo tareas "descargas/PRR" (worlds 57)).progress ++ [])) ++
   ((consolidar_archivos_descargados
       (descargar_en_paralelo tareas "descargas/CCM" (worlds 58)).downloaded
       parse wk 80 20).progress ++
     ((consolidar_archivos_descargados
        (descargar_en_paralelo tareas "descargas/PRR" (worlds 57)).downloaded
        parse wk 80 20).progress ++ [])),
   (descargar_en_paralelo tareas "descargas/CCM" (worlds 58)).gets +
     ((descargar_en_paralelo tareas "descargas/PRR" (worlds 57)).gets + 0),
   [(58, (descargar_en_paralelo tareas "descargas/CCM" (worlds 58)).downloaded),
    (57, (descargar_en_paralelo tareas "descargas/PRR" (worlds 57)).downloaded)],
   [("descargas/CCM/consolidado_total_CCM.csv",
     (consolidar_archivos_descargados
       (descargar_en_paralelo tareas "descargas/CCM" (worlds 58)).downloaded
       parse wk 80 20).output),
    ("descargas/PRR/consolidado_total_PRR.csv",
     (consolidar_archivos_descargados
       (descargar_en_paralelo tareas "descargas/PRR" (worlds 57)).downloaded
       parse wk 80 20).output)]⟩

/-! ## Trace bookkeeping lemmas -/

theorem cleanTemp_dest (s : FetchState) : (cleanTemp s).dest = s.dest := by
  cases h : s.temp <;> simp [cleanTemp, h]

@[simp]
theorem sleepsOf_nil : sleepsOf [] = [] := rfl

@[simp]
theorem sleepsOf_cons (e : Ev) (l : List Ev) :
    sleepsOf (e :: l) =
      (match e with | Ev.sleep d => [d] | _ => []) ++ sleepsOf l := by
  cases e <;> rfl

@[simp]
theorem countGets_nil : countGets [] = 0 := rfl

@[simp]
theorem countGets_cons (e : Ev) (l : List Ev) :
    countGets (e :: l) =
      (match e with | Ev.httpGet => 1 | _ => 0) + countGets l := by
  cases e <;> simp [countGets, List.filter] <;> omega

@[simp]
theorem sleepsOf_append (l l' : List Ev) :
    sleepsOf (l ++ l') = sleepsOf l ++ sleepsOf l' := by
  simp [sleepsOf]

@[simp]
theorem countGets_append (l l' : List Ev) :
    countGets (l ++ l') = countGets l + countGets l' := by
  simp [countGets]

@[simp]
theorem sleepsOf_cleanTemp (s : FetchState) :
    sleepsOf (cleanTemp s).events = sleepsOf s.events := by
  cases h : s.temp <;> simp [cleanTemp, h, sleepsOf]

@[simp]
theorem countGets_cleanTemp (s : FetchState) :
    countGets (cleanTemp s).events = countGets s.events := by
  cases h : s.temp <;> simp [cleanTemp, h, countGets]

theorem mem_rename_cleanTemp (s : FetchState) (b : Content) :
    Ev.rename b ∈ (cleanTemp s).events ↔ Ev.rename b ∈ s.events := by
  cases h : s.temp <;> simp [cleanTemp, h]

/-- Core invariant of the retry loop: on failure the destination is
untouched; on success the destination holds the bytes of some attempt's
fully streamed body that passed the size check; and every rename event
ever emitted commits such a verified full body. -/
theorem fetchLoop_spec (envs : Nat → FetchEnv) :
    ∀ (fuel attempt : Nat) (s : FetchState),
    ((fetchLoop envs attempt fuel s).1 = false →
      (fetchLoop envs attempt fuel s).2.dest = s.dest) ∧
    ((fetchLoop envs attempt fuel s).1 = true →
      ∃ k cl b, (envs k).net = NetResult.fullBody cl b ∧
        ¬(0 < cl ∧ b.length ≠ cl) ∧
        (fetchLoop envs attempt fuel s).2.dest = some b) ∧
    (∀ b, Ev.rename b ∈ (fetchLoop envs attempt fuel s).2.events →
      Ev.rename b ∈ s.events ∨
      ∃ k cl, (envs k).net = NetResult.fullBody cl b ∧ ¬(0 < cl ∧ b.length ≠ cl)) := by
  intro fuel
  induction fuel with
  | zero =>
    intro attempt s
    exact ⟨fun _ => rfl, fun h => by simp [fetchLoop] at h, fun b hb => Or.inl hb⟩
  | succ fuel ih =>
    intro attempt s
    cases hl : (envs attempt).lockOk with
    | false =>
      simp only [fetchLoop, hl]
      refine ⟨fun _ => cleanTemp_dest _, fun h => by simp at h, fun b hb => ?_⟩
      exact Or.inl (by simpa [mem_rename_cleanTemp] using hb)
    | true =>
      cases hnet : (envs attempt).net with
      | connError is5xx =>
        simp only [fetchLoop, hl, hnet]
        by_cases ha : attempt < retries - 1
        · rw [if_pos ha]
          refine ⟨fun h => ?_, fun h => (ih _ _).2.1 h, fun b hb => ?_⟩
          · rw [(ih _ _).1 h]; exact cleanTemp_dest _
          · rcases (ih _ _).2.2 b hb with hb | hb
            · exact Or.inl (by simpa [mem_rename_cleanTemp] using hb)
            · exact Or.inr hb
        · rw [if_neg ha]
          refine ⟨fun _ => cleanTemp_dest _, fun h => by simp at h, fun b hb => ?_⟩
          exact Or.inl (by simpa [mem_rename_cleanTemp] using hb)
      | status401 =>
        simp only [fetchLoop, hl, hnet]
        exact ⟨fun _ => by simp, fun h => by simp at h, fun b hb => Or.inl (by simpa using hb)⟩
      | streamError written is5xx =>
        simp only [fetchLoop, hl, hnet]
        by_cases ha : attempt < retries - 1
        · rw [if_pos ha]
          refine ⟨fun h => ?_, fun h => (ih _ _).2.1 h, fun b hb => ?_⟩
          · rw [(ih _ _).1 h]; exact cleanTemp_dest _
          · rcases (ih _ _).2.2 b hb with hb | hb
            · exact Or.inl (by simpa [mem_rename_cleanTemp] using hb)
            · exact Or.inr hb
        · rw [if_neg ha]
          refine ⟨fun _ => cleanTemp_dest _, fun h => by simp at h, fun b hb => ?_⟩
          exact Or.inl (by simpa [mem_rename_cleanTemp] using hb)
      | fullBody cl bytes =>
        simp only [fetchLoop, hl, hnet]
        by_cases hm : 0 < cl ∧ bytes.length ≠ cl
        · rw [if_pos hm]
          by_cases ha : attempt < retries - 1
          · rw [if_pos ha]
            refine ⟨fun h => ?_, fun h => (ih _ _).2.1 h, fun b hb => ?_⟩
            · rw [(ih _ _).1 h]; exact cleanTemp_dest _
            · rcases (ih _ _).2.2 b hb with hb | hb
              · exact Or.inl (by simpa [mem_rename_cleanTemp] using hb)
              · exact Or.inr hb
          · rw [if_neg ha]
            refine ⟨fun _ => cleanTemp_dest _, fun h => by simp at h, fun b hb => ?_⟩
            exact Or.inl (by simpa [mem_rename_cleanTemp] using hb)
        · rw [if_neg hm]
          cases hr : (envs attempt).renameBusy with
          | true =>
            simp only [hr]
            refine ⟨fun h => (ih _ _).1 h, fun h => (ih _ _).2.1 h, fun b hb => ?_⟩
            rcases (ih _ _).2.2 b hb with hb | hb
            · exact Or.inl (by simpa using hb)
            · exact Or.inr hb
          | false =>
            simp only [hr]
            refine ⟨fun h => by simp at h, fun _ => ⟨attempt, cl, bytes, hnet, hm, rfl⟩,
              fun b hb => ?_⟩
            simp at hb
            rcases hb with hb | hb
            · exact Or.inl hb
            · exact Or.inr ⟨attempt, cl, hb ▸ hnet, hb ▸ hm⟩
      | unexpected =>
        simp only [fetchLoop, hl, hnet]
        refine ⟨fun _ => cleanTemp_dest _, fun h => by simp at h, fun b hb => ?_⟩
        exact Or.inl (by simpa [mem_rename_cleanTemp] using hb)

theorem attemptState_dest (attempt : Nat) (e : FetchEnv) (s : FetchState) :
    (attemptState attempt e s).dest = s.dest := by
  cases hnet : e.net with
  | connError is5xx => simp [attemptState, hnet, cleanTemp_dest]
  | streamError written is5xx => simp [attemptState, hnet, cleanTemp_dest]
  | fullBody cl bytes =>
    simp only [attemptState, hnet]
    by_cases hm : 0 < cl ∧ bytes.length ≠ cl
    · rw [if_pos hm]; exact cleanTemp_dest _
    · rw [if_neg hm]
  | status401 => simp [attemptState, hnet]
  | unexpected => simp [attemptState, hnet]

theorem sleepsOf_attemptState (attempt : Nat) (e : FetchEnv) (s : FetchState)
    (hc : continuesB e = true) :
    sleepsOf (attemptState attempt e s).events =
      sleepsOf s.events ++ [sleepOf attempt e] := by
  cases hnet : e.net with
  | connError is5xx =>
    simp [attemptState, hnet, sleepOf, isTransientReq, transient5xx]
  | streamError written is5xx =>
    simp [attemptState, hnet, sleepOf, isTransientReq, transient5xx]
  | fullBody cl bytes =>
    simp only [attemptState, hnet]
    by_cases hm : 0 < cl ∧ bytes.length ≠ cl
    · rw [if_pos hm]
      have ht : isTransientReq e = true := by
        simp [isTransientReq, hnet, hm.1, hm.2]
      simp [sleepOf, ht, transient5xx, hnet]
    · rw [if_neg hm]
      have ht : isTransientReq e = false := by
        simp only [isTransientReq, hnet]
        rcases Decidable.not_and_iff_or_not.mp hm with h | h <;> simp [h]
      simp [sleepOf, ht]
  | status401 => simp [continuesB, isTransientReq, renamePassB, hnet] at hc
  | unexpected => simp [continuesB, isTransientReq, renamePassB, hnet] at hc

theorem countGets_attemptState (attempt : Nat) (e : FetchEnv) (s : FetchState)
    (hc : continuesB e = true) :
    countGets (attemptState attempt e s).events = countGets s.events + 1 := by
  cases hnet : e.net with
  | connError is5xx => simp [attemptState, hnet]
  | streamError written is5xx => simp [attemptState, hnet]
  | fullBody cl bytes =>
    simp only [attemptState, hnet]
    by_cases hm : 0 < cl ∧ bytes.length ≠ cl
    · rw [if_pos hm]; simp
    · rw [if_neg hm]; simp
  | status401 => simp [continuesB, isTransientReq, renamePassB, hnet] at hc
  | unexpected => simp [continuesB, isTransientReq, renamePassB, hnet] at hc

/-- A continuing attempt below the retry cap advances the loop to the
next attempt with the state updated by `attemptState`. -/
theorem fetchLoop_continue (envs : Nat → FetchEnv) (fuel attempt : Nat) (s : FetchState)
    (hc : continuesB (envs attempt) = true) (ha : attempt < retries - 1) :
    fetchLoop envs attempt (fuel + 1) s =
      fetchLoop envs (attempt + 1) fuel (attemptState attempt (envs attempt) s) := by
  have hc' : (envs attempt).lockOk = true ∧
      (isTransientReq (envs attempt) = true ∨ renamePassB (envs attempt) = true) := by
    simpa [continuesB] using hc
  have hl : (envs attempt).lockOk = true := hc'.1
  cases hnet : (envs attempt).net with
  | connError is5xx =>
    simp only [fetchLoop, hl, hnet, attemptState]
    rw [if_pos ha]
  | streamError written is5xx =>
    simp only [fetchLoop, hl, hnet, attemptState]
    rw [if_pos ha]
  | fullBody cl bytes =>
    by_cases hm : 0 < cl ∧ bytes.length ≠ cl
    · simp only [fetchLoop, hl, hnet, attemptState]
      rw [if_pos hm, if_pos hm, if_pos ha]
    · have hr : (envs attempt).renameBusy = true := by
        rcases hc'.2 with h | h
        · exfalso
          simp [isTransientReq, hnet] at h
          exact hm h
        · simp [renamePassB, hnet] at h
          exact h.2
      simp only [fetchLoop, hl, hnet, attemptState, hr]
      rw [if_neg hm, if_neg hm]
  | status401 => simp [continuesB, isTransientReq, renamePassB, hnet] at hc
  | unexpected => simp [continuesB, isTransientReq, renamePassB, hnet] at hc

theorem iterState_dest (envs : Nat → FetchEnv) (s0 : FetchState) :
    ∀ k, (iterState envs s0 k).dest = s0.dest := by
  intro k
  induction k with
  | zero => rfl
  | succ k ih => rw [iterState, attemptState_dest, ih]

theorem sleepsOf_iterState (envs : Nat → FetchEnv) (s0 : FetchState) :
    ∀ k, (∀ j, j < k → continuesB (envs j) = true) →
    sleepsOf (iterState envs s0 k).events =
      sleepsOf s0.events ++ (List.range k).map (fun j => sleepOf j (envs j)) := by
  intro k
  induction k with
  | zero => simp [iterState]
  | succ k ih =>
    intro hcont
    rw [iterState, sleepsOf_attemptState _ _ _ (hcont k (Nat.lt_succ_self k)),
      ih (fun j hj => hcont j (hj.trans (Nat.lt_succ_self k))), List.range_succ]
    simp

theorem countGets_iterState (envs : Nat → FetchEnv) (s0 : FetchState) :
    ∀ k, (∀ j, j < k → continuesB (envs j) = true) →
    countGets (iterState envs s0 k).events = countGets s0.events + k := by
  intro k
  induction k with
  | zero => simp [iterState]
  | succ k ih =>
    intro hcont
    rw [iterState, countGets_attemptState _ _ _ (hcont k (Nat.lt_succ_self k)),
      ih (fun j hj => hcont j (hj.trans (Nat.lt_succ_self k)))]
    omega

/-- When the first `k` attempts all continue, the run from attempt 0 is
the run from attempt `k` started in the accumulated state. -/
theorem fetchLoop_reach (envs : Nat → FetchEnv) (s0 : FetchState) :
    ∀ k, k ≤ retries - 1 → (∀ j, j < k → continuesB (envs j) = true) →
    fetchLoop envs 0 retries s0 = fetchLoop envs k (retries - k) (iterState envs s0 k) := by
  intro k
  induction k with
  | zero => intro _ _; rfl
  | succ k ih =>
    intro hk hcont
    have hk' : k < retries - 1 := hk
    have hstep : retries - k = (retries - (k + 1)) + 1 := by omega
    rw [ih (Nat.le_of_lt hk') (fun j hj => hcont j (hj.trans (Nat.lt_succ_self k))), hstep,
      fetchLoop_continue envs _ k _ (hcont k (Nat.lt_succ_self k)) hk']
    rfl

/-- The request count grows by at most one per remaining attempt. -/
theorem fetchLoop_gets_le (envs : Nat → FetchEnv) :
    ∀ (fuel attempt : Nat) (s : FetchState),
    countGets (fetchLoop envs attempt fuel s).2.events ≤ countGets s.events + fuel := by
  intro fuel
  induction fuel with
  | zero => intro attempt s; simp [fetchLoop]
  | succ fuel ih =>
    intro attempt s
    cases hl : (envs attempt).lockOk with
    | false =>
      simp only [fetchLoop, hl]
      simp
    | true =>
      cases hnet : (envs attempt).net with
      | connError is5xx =>
        simp only [fetchLoop, hl, hnet]
        by_cases ha : attempt < retries - 1
        · rw [if_pos ha]
          refine (ih _ _).trans ?_
          simp
          omega
        · rw [if_neg ha]
          simp
      | status401 =>
        simp only [fetchLoop, hl, hnet]
        simp
      | streamError written is5xx =>
        simp only [fetchLoop, hl, hnet]
        by_cases ha : attempt < retries - 1
        · rw [if_pos ha]
          refine (ih _ _).trans ?_
          simp
          omega
        · rw [if_neg ha]
          simp
      | fullBody cl bytes =>
        simp only [fetchLoop, hl, hnet]
        by_cases hm : 0 < cl ∧ bytes.length ≠ cl
        · rw [if_pos hm]
          by_cases ha : attempt < retries - 1
          · rw [if_pos ha]
            refine (ih _ _).trans ?_
            simp
            omega
          · rw [if_neg ha]
            simp
        · rw [if_neg hm]
          cases hr : (envs attempt).renameBusy with
          | true =>
            refine (ih _ _).trans ?_
            simp
            omega
          | false =>
            simp
      | unexpected =>
        simp only [fetchLoop, hl, hnet]
        simp

/-- The slept delays of a run extend those already in the state. -/
theorem fetchLoop_sleeps_extend (envs : Nat → FetchEnv) :
    ∀ (fuel attempt : Nat) (s : FetchState),
    ∃ t, sleepsOf (fetchLoop envs attempt fuel s).2.events = sleepsOf s.events ++ t := by
  intro fuel
  induction fuel with
  | zero => intro attempt s; exact ⟨[], by simp [fetchLoop]⟩
  | succ fuel ih =>
    intro attempt s
    cases hl : (envs attempt).lockOk with
    | false =>
      simp only [fetchLoop, hl]
      exact ⟨[], by simp⟩
    | true =>
      cases hnet : (envs attempt).net with
      | connError is5xx =>
        simp only [fetchLoop, hl, hnet]
        by_cases ha : attempt < retries - 1
        · rw [if_pos ha]
          obtain ⟨t, ht⟩ := ih (attempt + 1) _
          refine ⟨backoff attempt (envs attempt).jitter (envs attempt).extra5xx is5xx :: t, ?_⟩
          rw [ht]
          simp
        · rw [if_neg ha]
          exact ⟨[], by simp⟩
      | status401 =>
        simp only [fetchLoop, hl, hnet]
        exact ⟨[], by simp⟩
      | streamError written is5xx =>
        simp only [fetchLoop, hl, hnet]
        by_cases ha : attempt < retries - 1
        · rw [if_pos ha]
          obtain ⟨t, ht⟩ := ih (attempt + 1) _
          refine ⟨backoff attempt (envs attempt).jitter (envs attempt).extra5xx is5xx :: t, ?_⟩
          rw [ht]
          simp
        · rw [if_neg ha]
          exact ⟨[], by simp⟩
      | fullBody cl bytes =>
        simp only [fetchLoop, hl, hnet]
        by_cases hm : 0 < cl ∧ bytes.length ≠ cl
        · rw [if_pos hm]
          by_cases ha : attempt < retries - 1
          · rw [if_pos ha]
            obtain ⟨t, ht⟩ := ih (attempt + 1) _
            refine ⟨backoff attempt (envs attempt).jitter (envs attempt).extra5xx false :: t, ?_⟩
            rw [ht]
            simp
          · rw [if_neg ha]
            exact ⟨[], by simp⟩
        · rw [if_neg hm]
          cases hr : (envs attempt).renameBusy with
          | true =>
            obtain ⟨t, ht⟩ := ih (attempt + 1) _
            refine ⟨(1 : ℚ) :: t, ?_⟩
            rw [ht]
            simp
          | false =>
            exact ⟨[], by simp⟩
      | unexpected =>
        simp only [fetchLoop, hl, hnet]
        exact ⟨[], by simp⟩

/-! ## List transfer lemmas for the consolidation model -/

theorem filterMap_range_getD {α β : Type} (l : List α) (d : α) (h : α → Option β) :
    (List.range l.length).filterMap (fun i => h (l.getD i d)) = l.filterMap h := by
  induction l with
  | nil => simp
  | cons a t ih =>
    have htail : (List.map Nat.succ (List.range t.length)).filterMap
        (fun i => h ((a :: t).getD i d)) = t.filterMap h := by
      rw [List.filterMap_map]
      rw [List.filterMap_congr (g := fun i => h (t.getD i d))
        (fun x hx => by simp [Function.comp]), ih]
    rw [List.length_cons, List.range_succ_eq_map, List.filterMap_cons, htail,
      List.filterMap_cons]
    cases hha : h a <;> simp [hha]

theorem filterMap_if {α β : Type} (l : List α) (p : α → Bool) (g : α → β) :
    l.filterMap (fun a => if p a then some (g a) else none) = (l.filter p).map g := by
  induction l with
  | nil => simp
  | cons a t ih =>
    by_cases hp : p a = true <;> simp [hp, ih]

/-- The dataframes of a consolidation run, read off the source list:
parse failures are skipped, parse successes contribute their filtered,
tagged rows (possibly the empty list). -/
theorem consolidar_output_eq (files : List String) (parse : String → Option (List Row))
    (wk : Bool) (base weight : ℚ) :
    (consolidar_archivos_descargados files parse wk base weight).output =
      if files.isEmpty then none
      else if (files.filterMap fun f => (parse f).map fun rows => lmRows f rows).isEmpty
        then none
      else if wk
        then some (files.filterMap fun f => (parse f).map fun rows => lmRows f rows).flatten
      else none := by
  by_cases hf : files.isEmpty
  · simp [consolidar_archivos_descargados, hf]
  · have hdf : ((List.range files.length).map fun i =>
        match parse (files.getD i "") with
        | none => ((none : Option (List CRow)), (none : Option ℚ))
        | some rows => (some (lmRows (files.getD i "") rows),
            some (base + ((i + 1 : ℚ) / files.length) * weight))).filterMap
          (fun st => st.1) =
        files.filterMap fun f => (parse f).map fun rows => lmRows f rows := by
      rw [List.filterMap_map]
      rw [List.filterMap_congr
        (g := fun i => (parse (files.getD i "")).map fun rows =>
          lmRows (files.getD i "") rows) ?_]
      · exact filterMap_range_getD files ""
          (fun f => (parse f).map fun rows => lmRows f rows)
      · intro i hi
        simp only [Function.comp_apply]
        cases hp : parse (files.getD i "") <;> rfl
    simp only [consolidar_archivos_descargados, hf, if_false, Bool.false_eq_true, hdf]
    split <;> rfl

/-- The progress emitted by a consolidation run: one value per
successfully parsed file, at its position in the input list. -/
theorem consolidar_progress_eq (files : List String) (parse : String → Option (List Row))
    (wk : Bool) (base weight : ℚ) :
    (consolidar_archivos_descargados files parse wk base weight).progress =
      ((List.range files.length).filter fun i => (parse (files.getD i "")).isSome).map
        fun i : Nat => base + ((i + 1 : ℚ) / files.length) * weight := by
  by_cases hf : files.isEmpty
  · have : files = [] := List.isEmpty_iff.mp hf
    subst this
    simp [consolidar_archivos_descargados]
  · have hpr : ((List.range files.length).map fun i =>
        match parse (files.getD i "") with
        | none => ((none : Option (List CRow)), (none : Option ℚ))
        | some rows => (some (lmRows (files.getD i "") rows),
            some (base + ((i + 1 : ℚ) / files.length) * weight))).filterMap
          (fun st => st.2) =
        ((List.range files.length).filter fun i =>
          (parse (files.getD i "")).isSome).map
          fun i : Nat => base + ((i + 1 : ℚ) / files.length) * weight := by
      rw [List.filterMap_map]
      rw [List.filterMap_congr
        (g := fun i => if (parse (files.getD i "")).isSome
          then some (base + ((i + 1 : ℚ) / files.length) * weight) else none) ?_]
      · exact filterMap_if (List.range files.length)
          (fun i => (parse (files.getD i "")).isSome)
          (fun i => base + ((i + 1 : ℚ) / files.length) * weight)
      · intro i hi
        simp only [Function.comp_apply]
        cases hp : parse (files.getD i "") <;> rfl
    simp only [consolidar_archivos_descargados, hf, if_false, Bool.false_eq_true, hpr]
    split <;> rfl

/-- Parse failures contribute nothing; parse successes contribute their
block of filtered rows — flattening agrees with the per-file view. -/
theorem flatten_blocks (files : List String) (parse : String → Option (List Row)) :
    (files.filterMap fun f => (parse f).map fun rows => lmRows f rows).flatten =
      (files.map (blockOf parse)).flatten := by
  induction files with
  | nil => simp
  | cons f t ih =>
    cases hp : parse f <;> simp [hp, blockOf, ih]

/-- The consolidation progress emissions are non-decreasing and lie in
`(80, 100]` (base 80, weight 20). -/
theorem consolidar_progress_chain (files : List String) (parse : String → Option (List Row))
    (wk : Bool) :
    List.Chain' (· ≤ ·) (consolidar_archivos_descargados files parse wk 80 20).progress ∧
    ∀ x ∈ (consolidar_archivos_descargados files parse wk 80 20).progress,
      80 < x ∧ x ≤ 100 := by
  rw [consolidar_progress_eq]
  rcases Nat.eq_zero_or_pos files.length with hn | hn
  · rw [hn]
    simp
  · have hnq : (0 : ℚ) < files.length := by exact_mod_cast hn
    constructor
    · refine List.Pairwise.chain' ?_
      rw [List.pairwise_map]
      refine ((List.pairwise_lt_range files.length).filter _).imp ?_
      intro i j hij
      have hij' : ((i : ℚ) + 1) / files.length ≤ ((j : ℚ) + 1) / files.length := by
        have : (i : ℚ) + 1 ≤ (j : ℚ) + 1 := by
          have : (i : ℚ) ≤ (j : ℚ) := by exact_mod_cast Nat.le_of_lt hij
          linarith
        gcongr
      have := mul_le_mul_of_nonneg_right hij' (by norm_num : (0 : ℚ) ≤ 20)
      linarith
    · intro x hx
      simp only [List.mem_map, List.mem_filter, List.mem_range] at hx
      obtain ⟨i, ⟨hin, -⟩, rfl⟩ := hx
      have h1 : (0 : ℚ) < ((i : ℚ) + 1) / files.length := by positivity
      have h2 : ((i : ℚ) + 1) / files.length ≤ 1 := by
        rw [div_le_one hnq]
        exact_mod_cast Nat.succ_le_of_lt hin
      have h3 := mul_le_mul_of_nonneg_right h2 (by norm_num : (0 : ℚ) ≤ 20)
      constructor
      · nlinarith
      · linarith

/-- The download progress emissions of one module are non-decreasing
and lie in `(0, 80]`. -/
theorem paralelo_progress_chain (n : Nat) :
    List.Chain' (· ≤ ·) ((List.range n).map fun i : Nat => ((i + 1 : ℚ) / n) * 80) ∧
    ∀ x ∈ (List.range n).map fun i : Nat => ((i + 1 : ℚ) / n) * 80, 0 < x ∧ x ≤ 80 := by
  rcases Nat.eq_zero_or_pos n with hn | hn
  · subst hn
    simp
  · have hnq : (0 : ℚ) < n := by exact_mod_cast hn
    constructor
    · refine List.Pairwise.chain' ?_
      rw [List.pairwise_map]
      refine (List.pairwise_lt_range n).imp ?_
      intro i j hij
      have hij' : ((i : ℚ) + 1) / n ≤ ((j : ℚ) + 1) / n := by
        have : (i : ℚ) + 1 ≤ (j : ℚ) + 1 := by
          have : (i : ℚ) ≤ (j : ℚ) := by exact_mod_cast Nat.le_of_lt hij
          linarith
        gcongr
      have := mul_le_mul_of_nonneg_right hij' (by norm_num : (0 : ℚ) ≤ 80)
      linarith
    · intro x hx
      simp only [List.mem_map, List.mem_range] at hx
      obtain ⟨i, hin, rfl⟩ := hx
      have h1 : (0 : ℚ) < ((i : ℚ) + 1) / n := by positivity
      have h2 : ((i : ℚ) + 1) / n ≤ 1 := by
        rw [div_le_one hnq]
        exact_mod_cast Nat.succ_le_of_lt hin
      have h3 := mul_le_mul_of_nonneg_right h2 (by norm_num : (0 : ℚ) ≤ 80)
      constructor
      · positivity
      · linarith

theorem paralelo_progress_getLast (n : Nat) (hn : n ≠ 0) :
    (((List.range n).map fun i : Nat => ((i + 1 : ℚ) / n) * 80).getLast?) =
      some ((n : ℚ) / n * 80) := by
  obtain ⟨m, rfl⟩ := Nat.exists_eq_succ_of_ne_zero hn
  rw [List.range_succ, List.map_append]
  simp only [List.map_cons, List.map_nil, List.getLast?_concat]
  congr 1
  push_cast
  ring

theorem paralelo_progress_head (n : Nat) (hn : n ≠ 0) :
    (((List.range n).map fun i : Nat => ((i + 1 : ℚ) / n) * 80).head?) =
      some (1 / (n : ℚ) * 80) := by
  obtain ⟨m, rfl⟩ := Nat.exists_eq_succ_of_ne_zero hn
  rw [List.range_succ_eq_map]
  simp

/-- A single-module batch is the corresponding `batchSingle` value. -/
theorem batch_single_eq (ow : Bool) (worlds : Nat → Nat → TaskWorld)
    (parse : String → Option (List Row)) (wk : Bool) :
    descargar_y_consolidar (some ["CCM"]) ow worlds parse wk =
      Except.ok (batchSingle 58 "descargas/CCM" worlds parse wk) ∧
    descargar_y_consolidar (some ["PRR"]) ow worlds parse wk =
      Except.ok (batchSingle 57 "descargas/PRR" worlds parse wk) :=
  ⟨rfl, rfl⟩

/-! ## Claims -/

/-- **C1**: for every invocation of `descargar_archivo`, a failed or
interrupted download leaves the destination exactly as it was before
the attempt; the destination changes only when the function returns
success, and then it holds the bytes of a fully streamed body that
passed the size verification (its length equals the advertised
content-length whenever one was given); moreover every rename event
ever emitted commits such a fully written, size-verified temp file. -/
theorem C1_atomic_destination :
    ∀ (ow : Bool) (d0 : Option Content) (envs : Nat → FetchEnv),
    ((descargar_archivo ow d0 envs).1 = false →
      (descargar_archivo ow d0 envs).2.dest = d0) ∧
    ((descargar_archivo ow d0 envs).2.dest ≠ d0 →
      (descargar_archivo ow d0 envs).1 = true ∧
      ∃ k cl b, (descargar_archivo ow d0 envs).2.dest = some b ∧
        (envs k).net = NetResult.fullBody cl b ∧ (0 < cl → b.length = cl)) ∧
    (∀ b, Ev.rename b ∈ (descargar_archivo ow d0 envs).2.events →
      ∃ k cl, (envs k).net = NetResult.fullBody cl b ∧ (0 < cl → b.length = cl)) := by
  intro ow d0 envs
  by_cases h0 : d0.isSome ∧ ow = false
  · simp only [descargar_archivo]
    rw [if_pos h0]
    exact ⟨fun h => by simp at h, fun hd => absurd rfl hd, fun b hb => by simp at hb⟩
  · simp only [descargar_archivo]
    rw [if_neg h0]
    obtain ⟨h1, h2, h3⟩ := fetchLoop_spec envs retries 0 ⟨d0, none, []⟩
    refine ⟨h1, fun hd => ?_, fun b hb => ?_⟩
    · have hbv : (fetchLoop envs 0 retries ⟨d0, none, []⟩).1 = true := by
        cases hres : (fetchLoop envs 0 retries ⟨d0, none, []⟩).1 with
        | false => exact absurd (h1 hres) hd
        | true => rfl
      obtain ⟨k, cl, b, hnet, hm, hdest⟩ := h2 hbv
      refine ⟨hbv, k, cl, b, hdest, hnet, fun hcl => ?_⟩
      by_contra hne
      exact hm ⟨hcl, hne⟩
    · rcases h3 b hb with hb' | ⟨k, cl, hnet, hm⟩
      · simp at hb'
      · refine ⟨k, cl, hnet, fun hcl => ?_⟩
        by_contra hne
        exact hm ⟨hcl, hne⟩

/-- Witness for C1: a run whose five attempts all fail with connection
errors returns `False` and leaves the (absent) destination absent. -/
theorem C1_atomic_destination_witness :
    (descargar_archivo true none fun _ => envFail).2.dest = none :=
  (C1_atomic_destination true none fun _ => envFail).1 (by rfl)

/-- **C2** (code bug): the lock is *not* held for the duration of the
write.  On a fully successful fetch the trace shows the lock released
(the `with file_lock(...)` block of descarga.py ends at line 271)
before the body is streamed to the temp file and before the rename
commits it, so the temp write and the rename happen with zero locks
held. -/
theorem C2_lock_released_before_write :
    (descargar_archivo true none fun _ => envOk).2.events =
      [Ev.lockAcquire, Ev.httpGet, Ev.lockRelease,
        Ev.tempWrite [7, 8], Ev.rename [7, 8]] ∧
    writesLocked (descargar_archivo true none fun _ => envOk).2.events 0 = false ∧
    (descargar_archivo true none fun _ => envOk).1 = true :=
  ⟨rfl, rfl, rfl⟩

/-- **C3** (code bug): `descargar_archivo` itself does short-circuit on
an existing destination when `overwrite` is false — but the batch never
requests that: `descargar_en_paralelo` hardcodes `overwrite=True`
(descarga.py line 401) and `descargar_y_consolidar` never consults its
`overwrite` parameter, so a batch re-run with `overwrite=false` over
already-complete destinations still issues one HTTP request per task
(56 for the CCM module) instead of zero. -/
theorem C3_overwrite_flag_dead :
    (∀ envs : Nat → FetchEnv,
      descargar_archivo false (some [1]) envs = (true, ⟨some [1], none, []⟩)) ∧
    (∃ r, descargar_y_consolidar (some ["CCM"]) false (fun _ _ => worldExists)
        (fun _ => none) true = Except.ok r ∧
      r.gets = 56 ∧ (56 : Nat) ≠ 0) :=
  ⟨fun envs => rfl, ⟨_, rfl, rfl, by omega⟩⟩

/-- **C5 amended**: the batch entry point returns a boolean and partial
per-task download failures never flip it — but it also returns success
(`True`) when zero files succeed and when the consolidated dataset
cannot be written, because `consolidar_archivos_descargados` absorbs
those conditions without raising; whenever the regular path completes
it returns `True` (the bare `return` of the no-modules-selected branch
returns no boolean at all). -/
theorem C5_amended_batch_result :
    ∀ (sel : Option (List String)) (ow : Bool) (worlds : Nat → Nat → TaskWorld)
      (parse : String → Option (List Row)) (wk : Bool) (r : BatchResult),
    descargar_y_consolidar sel ow worlds parse wk = Except.ok r →
    r.success = some true ∨ r.success = none := by
  intro sel ow worlds parse wk r h
  simp only [descargar_y_consolidar] at h
  split at h
  · injection h with h'
    subst h'
    exact Or.inr rfl
  · split at h
    · exact absurd h (by simp)
    · injection h with h'
      subst h'
      exact Or.inl rfl

/-- Counterexample for C5 as stated: a batch in which every download of
the selected CCM module fails (zero succeeded files, zero usable
partitions) still returns overall success `True`, where the claim
requires a failed result. -/
theorem C5_zero_success_reports_success :
    ∃ r, descargar_y_consolidar (some ["CCM"]) false (fun _ _ => worldFail)
        (fun _ => none) true = Except.ok r ∧
      r.success = some true ∧ r.downloaded = [(58, [])] :=
  ⟨_, rfl, rfl, rfl⟩

/-- Witness for C5 amended at a concrete batch. -/
theorem C5_amended_batch_result_witness :
    ∃ r, descargar_y_consolidar (some ["CCM"]) false (fun _ _ => worldOk)
        (fun _ => none) true = Except.ok r ∧
      (r.success = some true ∨ r.success = none) := by
  refine ⟨_, rfl, ?_⟩
  exact C5_amended_batch_result (some ["CCM"]) false (fun _ _ => worldOk)
    (fun _ => none) true _ rfl

/-- **C8 amended**: the consolidation produces no output file when the
input list is empty or when every file fails to parse — but when at
least one file parses (and the write succeeds) an output file *is*
written even if every parsed row was dropped by the canonical-id
filter, producing a dataset with zero rows (a header-only file) where
the claim requires no file at all. -/
theorem C8_amended_output_iff :
    ∀ (files : List String) (parse : String → Option (List Row)) (wk : Bool),
    (consolidar_archivos_descargados files parse wk 80 20).output ≠ none ↔
      wk = true ∧ ∃ f ∈ files, (parse f).isSome := by
  intro files parse wk
  rw [consolidar_output_eq]
  by_cases hf : files.isEmpty
  · rw [if_pos hf]
    rw [List.isEmpty_iff] at hf
    subst hf
    simp
  · rw [if_neg hf]
    by_cases hd : (files.filterMap fun f => (parse f).map fun rows => lmRows f rows).isEmpty
    · rw [if_pos hd]
      rw [List.isEmpty_iff, List.filterMap_eq_nil_iff] at hd
      constructor
      · intro h
        exact absurd rfl h
      · rintro ⟨-, f, hfin, hps⟩
        have hnone := hd f hfin
        rw [Option.map_eq_none'] at hnone
        rw [hnone] at hps
        simp at hps
    · rw [if_neg hd]
      rw [List.isEmpty_iff] at hd
      have hex : ∃ f ∈ files, (parse f).isSome := by
        by_contra hno
        push_neg at hno
        refine hd (List.filterMap_eq_nil_iff.mpr fun f hfin => ?_)
        rw [Option.map_eq_none']
        exact Option.not_isSome_iff_eq_none.mp (by simpa using hno f hfin)
      constructor
      · intro h
        by_cases hwk : wk = true
        · exact ⟨hwk, hex⟩
        · rw [if_neg hwk] at h
          exact absurd rfl h
      · rintro ⟨hwk, -⟩
        rw [if_pos hwk]
        simp

/-- Counterexample for C8 as stated: one file parses successfully but
every row fails the `LM` filter — the claim says no output file is
created, yet the code writes one (with zero data rows). -/
theorem C8_empty_rows_still_written :
    (consolidar_archivos_descargados ["a/f.csv"] (fun _ => some [⟨"XX1"⟩]) true 80 20).output
      = some [] ∧ (some ([] : List CRow)) ≠ none :=
  ⟨rfl, by simp⟩

/-- Witness for C8 amended: the empty input list produces no output. -/
theorem C8_amended_output_iff_witness :
    (consolidar_archivos_descargados [] (fun _ => none) true 80 20).output = none := by
  by_contra hne
  obtain ⟨-, f, hf, -⟩ := (C8_amended_output_iff [] (fun _ => none) true).mp hne
  simp at hf

/-- **C9**: a consolidation that writes an output dataset concatenates,
in input-file order, exactly the rows whose `NumeroTramite` starts with
"LM" from the successfully parsed partitions (failed partitions
contribute nothing), the output row count is the sum of those per-file
counts, and every output row carries the non-empty base name of its
source file as provenance. -/
theorem C9_consolidation_completeness :
    ∀ (files : List String) (parse : String → Option (List Row)) (wk : Bool)
      (rows : List CRow),
    (consolidar_archivos_descargados files parse wk 80 20).output = some rows →
    rows = (files.map (blockOf parse)).flatten ∧
    rows.length = (files.map fun f =>
      match parse f with
      | some rs => (rs.filter fun r => startsWithLM r.numeroTramite).length
      | none => 0).sum ∧
    ((∀ f ∈ files, basename f ≠ "") →
      ∀ r ∈ rows, r.archivo_origen ≠ "" ∧ ∃ f ∈ files, r.archivo_origen = basename f) := by
  intro files parse wk rows h
  rw [consolidar_output_eq] at h
  split at h
  · exact absurd h (by simp)
  · split at h
    · exact absurd h (by simp)
    · split at h
      · injection h with h'
        subst h'
        refine ⟨flatten_blocks files parse, ?_, ?_⟩
        · rw [flatten_blocks, List.length_flatten, List.map_map]
          refine congrArg List.sum (List.map_congr_left fun f hfin => ?_)
          cases hp : parse f <;> simp [Function.comp, blockOf, hp, lmRows]
        · intro hbn r hr
          rw [flatten_blocks, List.mem_flatten] at hr
          obtain ⟨bl, hbl, hrbl⟩ := hr
          rw [List.mem_map] at hbl
          obtain ⟨f, hfin, rfl⟩ := hbl
          cases hp : parse f with
          | none => simp [blockOf, hp] at hrbl
          | some rs =>
            simp only [blockOf, hp, lmRows, List.mem_map] at hrbl
            obtain ⟨r0, hr0, rfl⟩ := hrbl
            exact ⟨by simpa using hbn f hfin, f, hfin, rfl⟩
      · exact absurd h (by simp)

/-- Witness for C9 at a concrete consolidation. -/
theorem C9_consolidation_completeness_witness :
    (([⟨"LM1", "f.csv"⟩] : List CRow)) =
      ((["a/f.csv"].map (blockOf fun _ => some [⟨"LM1"⟩, ⟨"XX"⟩])).flatten) :=
  (C9_consolidation_completeness ["a/f.csv"] (fun _ => some [⟨"LM1"⟩, ⟨"XX"⟩]) true
    [⟨"LM1", "f.csv"⟩] (by rfl)).1

/-- **C10**: with no module filter (`selected_modules=None`) and the
regular download path, the batch raises an uncaught `KeyError` when the
download loop reaches category 317 (the URL planner emits groups for
58, 57, 317, 55 while folders exist only for 58 and 57); restricting
the selection to CCM and PRR terminates normally. -/
theorem C10_unfiltered_batch_keyerror :
    (∀ (ow : Bool) (worlds : Nat → Nat → TaskWorld) (parse : String → Option (List Row))
      (wk : Bool), descargar_y_consolidar none ow worlds parse wk = Except.error 317) ∧
    (∀ (ow : Bool) (worlds : Nat → Nat → TaskWorld) (parse : String → Option (List Row))
      (wk : Bool),
      (descargar_y_consolidar (some ["CCM", "PRR"]) ow worlds parse wk).isOk = true) :=
  ⟨fun _ _ _ _ => rfl, fun _ _ _ _ => rfl⟩

/-- **C7**: a 401 response is permanent for the task — after any run of
continuing attempts, the attempt that receives a 401 issues its request
(making `k + 1` requests in total), then no further requests and no
further sleep occur, the fetch returns failure immediately and the
destination is untouched; and in the batch each task's outcome is a
function of its own task world only, so other tasks are unaffected and
may still succeed. -/
theorem C7_auth_401_permanent :
    (∀ (envs : Nat → FetchEnv) (d0 : Option Content) (k : Nat),
      k < retries → (∀ j, j < k → continuesB (envs j) = true) →
      (envs k).lockOk = true → (envs k).net = NetResult.status401 →
      (descargar_archivo true d0 envs).1 = false ∧
      countGets (descargar_archivo true d0 envs).2.events = k + 1 ∧
      (sleepsOf (descargar_archivo true d0 envs).2.events).length = k ∧
      (descargar_archivo true d0 envs).2.dest = d0) ∧
    (∀ (tasks : List (Nat × String)) (folder : String) (world : Nat → TaskWorld),
      (descargar_en_paralelo tasks folder world).downloaded =
        ((List.range tasks.length).filter fun i =>
          (descargar_archivo true (world i).dest0 (world i).envs).1).map
          fun i => folder ++ "/" ++
            nombreArchivo (tasks.getD i (0, "")).1 (tasks.getD i (0, "")).2) ∧
    (∀ (world world' : Nat → TaskWorld) (i : Nat),
      (∀ j, j ≠ i → world j = world' j) →
      ∀ j, j ≠ i →
        descargar_archivo true (world j).dest0 (world j).envs =
          descargar_archivo true (world' j).dest0 (world' j).envs) := by
  refine ⟨?_, ?_, ?_⟩
  · intro envs d0 k hk hcont hl hnet
    have hde : descargar_archivo true d0 envs =
        fetchLoop envs 0 retries ⟨d0, none, []⟩ := by
      simp [descargar_archivo]
    have h5 : retries = 5 := rfl
    have hreach := fetchLoop_reach envs ⟨d0, none, []⟩ k (by omega) hcont
    obtain ⟨m, hm⟩ : ∃ m, retries - k = m + 1 := ⟨retries - k - 1, by omega⟩
    have hstep : fetchLoop envs k (m + 1) (iterState envs ⟨d0, none, []⟩ k) =
        (false, ⟨(iterState envs ⟨d0, none, []⟩ k).dest,
                 (iterState envs ⟨d0, none, []⟩ k).temp,
                 (iterState envs ⟨d0, none, []⟩ k).events ++
                   [Ev.lockAcquire, Ev.httpGet] ++ [Ev.lockRelease]⟩) := by
      simp only [fetchLoop, hl, hnet]
    rw [hde, hreach, hm, hstep]
    refine ⟨rfl, ?_, ?_, iterState_dest envs _ k⟩
    · simp [countGets_iterState envs _ k hcont]
    · simp [sleepsOf_iterState envs _ k hcont]
  · intro tasks folder world
    simp only [descargar_en_paralelo, List.filter_map, List.map_map]
    rfl
  · intro world world' i hag j hj
    rw [hag j hj]

/-- Witness for C7: a 401 on the very first attempt — one request, no
sleeps, immediate failure, destination untouched. -/
theorem C7_auth_401_permanent_witness :
    (descargar_archivo true none fun _ => env401).1 = false ∧
    countGets (descargar_archivo true none fun _ => env401).2.events = 0 + 1 ∧
    (sleepsOf (descargar_archivo true none fun _ => env401).2.events).length = 0 ∧
    (descargar_archivo true none fun _ => env401).2.dest = none :=
  C7_auth_401_permanent.1 (fun _ => env401) none 0 (by norm_num [retries])
    (fun j hj => absurd hj (Nat.not_lt_zero j)) rfl rfl

/-- **C6 amended**: the delay slept before the `(k+1)`-th attempt after
a transient *request* failure (connection error, 5xx, size mismatch) at
0-based attempt `k` is `5 * 2^k + jitter`, plus the extra 5xx delay
when applicable — but a retry caused by rename contention
(`os.replace` hitting `EACCES`) sleeps a fixed 1 second instead; at
most 5 request attempts are ever issued; after the final attempt no
backoff sleep occurs when it fails transiently, yet the fixed 1-second
rename-contention sleep does occur even after the final attempt. -/
theorem C6_amended_backoff :
    ∀ (envs : Nat → FetchEnv) (d0 : Option Content),
    (∀ k, k < retries → (∀ j, j < k → continuesB (envs j) = true) →
      (sleepsOf (descargar_archivo true d0 envs).2.events).take k =
        (List.range k).map fun j =>
          if isTransientReq (envs j) = true
          then retry_delay * 2 ^ j + (envs j).jitter +
            (if transient5xx (envs j) = true then (envs j).extra5xx else 0)
          else 1) ∧
    countGets (descargar_archivo true d0 envs).2.events ≤ retries ∧
    ((∀ j, j < retries - 1 → continuesB (envs j) = true) →
      ((envs (retries - 1)).lockOk = true →
        isTransientReq (envs (retries - 1)) = true →
        (sleepsOf (descargar_archivo true d0 envs).2.events).length = retries - 1) ∧
      (continuesB (envs (retries - 1)) = true →
        isTransientReq (envs (retries - 1)) = false →
        (sleepsOf (descargar_archivo true d0 envs).2.events).length = retries)) := by
  intro envs d0
  have h5 : retries = 5 := rfl
  have hde : descargar_archivo true d0 envs =
      fetchLoop envs 0 retries ⟨d0, none, []⟩ := by
    simp [descargar_archivo]
  refine ⟨?_, ?_, ?_⟩
  · intro k hk hcont
    rw [hde, fetchLoop_reach envs ⟨d0, none, []⟩ k (by omega) hcont]
    obtain ⟨t, ht⟩ := fetchLoop_sleeps_extend envs (retries - k) k
      (iterState envs ⟨d0, none, []⟩ k)
    rw [ht, sleepsOf_iterState envs _ k hcont]
    simp only [sleepsOf_nil, List.nil_append, List.append_assoc]
    rw [List.take_left' (by simp)]
    rfl
  · rw [hde]
    have := fetchLoop_gets_le envs retries 0 ⟨d0, none, []⟩
    simpa using this
  · intro hcont4
    have hreach := fetchLoop_reach envs ⟨d0, none, []⟩ (retries - 1) (by omega) hcont4
    have hiter := sleepsOf_iterState envs ⟨d0, none, []⟩ (retries - 1) hcont4
    have hfuel : retries - (retries - 1) = 1 := by omega
    constructor
    · intro hl ht
      rw [hde, hreach, hfuel]
      cases hnet : (envs (retries - 1)).net with
      | connError is5xx =>
        simp only [fetchLoop, hl, hnet]
        rw [if_neg (by omega : ¬ (retries - 1 < retries - 1))]
        simp [hiter]
      | streamError written is5xx =>
        simp only [fetchLoop, hl, hnet]
        rw [if_neg (by omega : ¬ (retries - 1 < retries - 1))]
        simp [hiter]
      | fullBody cl bytes =>
        have hmm : 0 < cl ∧ bytes.length ≠ cl := by
          simpa [isTransientReq, hnet] using ht
        simp only [fetchLoop, hl, hnet]
        rw [if_pos hmm, if_neg (by omega : ¬ (retries - 1 < retries - 1))]
        simp [hiter]
      | status401 => simp [isTransientReq, hnet] at ht
      | unexpected => simp [isTransientReq, hnet] at ht
    · intro hcB htF
      have hc' : (envs (retries - 1)).lockOk = true ∧
          (isTransientReq (envs (retries - 1)) = true ∨
            renamePassB (envs (retries - 1)) = true) := by
        simpa [continuesB] using hcB
      have hrp : renamePassB (envs (retries - 1)) = true := by
        rcases hc'.2 with h | h
        · rw [htF] at h
          simp at h
        · exact h
      cases hnet : (envs (retries - 1)).net with
      | fullBody cl bytes =>
        have hbm : ¬ (0 < cl ∧ bytes.length ≠ cl) := by
          intro hcon
          rw [isTransientReq] at htF
          rw [hnet] at htF
          simp [hcon.1, hcon.2] at htF
        have hbusy : (envs (retries - 1)).renameBusy = true := by
          have := hrp
          rw [renamePassB, hnet] at this
          simp at this
          exact this.2
        rw [hde, hreach, hfuel]
        simp only [fetchLoop, hc'.1, hnet, hbusy]
        rw [if_neg hbm]
        simp only [fetchLoop]
        simp [hiter]
        omega
      | connError is5xx => simp [renamePassB, hnet] at hrp
      | streamError written is5xx => simp [renamePassB, hnet] at hrp
      | status401 => simp [renamePassB, hnet] at hrp
      | unexpected => simp [renamePassB, hnet] at hrp

/-- Counterexample for C6 as stated: rename contention on the first
attempt is retried after a fixed 1-second sleep, which no value of the
claimed formula `5 * 2^(k-1) + jitter` with jitter in `[0, 1)` can
equal. -/
theorem C6_rename_contention_delay_cex :
    sleepsOf (descargar_archivo true none envsBusyThenOk).2.events = [1] ∧
    (descargar_archivo true none envsBusyThenOk).1 = true ∧
    countGets (descargar_archivo true none envsBusyThenOk).2.events = 2 ∧
    ∀ j : ℚ, 0 ≤ j → j < 1 → (1 : ℚ) ≠ retry_delay * 2 ^ (0 : Nat) + j := by
  refine ⟨rfl, rfl, rfl, fun j h0 h1 hEq => ?_⟩
  simp only [retry_delay] at hEq
  norm_num at hEq
  linarith

/-- Witness for C6 amended: two consecutive 5xx failures with jitter
1/2 and extra delay 6 sleep 5*2^0 + 1/2 + 6 = 23/2 and then
5*2^1 + 1/2 + 6 = 33/2 seconds. -/
theorem C6_amended_backoff_witness :
    (sleepsOf (descargar_archivo true none fun _ => env5xx).2.events).take 2 =
      [(23 : ℚ) / 2, 33 / 2] := by
  rw [(C6_amended_backoff (fun _ => env5xx) none).1 2 (by norm_num [retries])
    (fun j hj => rfl)]
  simp [List.range_succ, isTransientReq, transient5xx, env5xx, retry_delay]
  norm_num

/-- One module's full progress sequence — downloads then its
consolidation — is non-decreasing and lies in `(0, 100]`. -/
theorem single_module_progress_ok (folder : String) (w : Nat → TaskWorld)
    (parse : String → Option (List Row)) (wk : Bool) :
    List.Chain' (· ≤ ·)
      ((descargar_en_paralelo tareas folder w).progress ++
        (consolidar_archivos_descargados
          (descargar_en_paralelo tareas folder w).downloaded parse wk 80 20).progress) ∧
    ∀ x ∈ (descargar_en_paralelo tareas folder w).progress ++
        (consolidar_archivos_descargados
          (descargar_en_paralelo tareas folder w).downloaded parse wk 80 20).progress,
      0 < x ∧ x ≤ 100 := by
  have hdl : (descargar_en_paralelo tareas folder w).progress =
      (List.range tareas.length).map fun i : Nat => ((i + 1 : ℚ) / tareas.length) * 80 := rfl
  obtain ⟨hc1, hb1⟩ := paralelo_progress_chain tareas.length
  obtain ⟨hc2, hb2⟩ := consolidar_progress_chain
    (descargar_en_paralelo tareas folder w).downloaded parse wk
  have hcast : ((tareas.length : Nat) : ℚ) = 56 := by
    rw [show tareas.length = 56 from rfl]
    norm_num
  constructor
  · rw [hdl]
    refine List.Chain'.append hc1 hc2 ?_
    intro x hx y hy
    rw [paralelo_progress_getLast tareas.length (by decide)] at hx
    have hxv : x = ((tareas.length : ℚ)) / tareas.length * 80 := by
      cases hx
      rfl
    have hx80 : x = 80 := by
      rw [hxv, hcast]
      norm_num
    have hy80 := (hb2 y (List.mem_of_mem_head? hy)).1
    rw [hx80]
    linarith
  · intro x hx
    rw [hdl] at hx
    rcases List.mem_append.mp hx with hx | hx
    · obtain ⟨h1, h2⟩ := hb1 x hx
      exact ⟨h1, h2.trans (by norm_num)⟩
    · obtain ⟨h1, h2⟩ := hb2 x hx
      exact ⟨by linarith, h2⟩

/-- **C4 amended**: for a batch over a *single* selected module, the
emitted progress sequence is monotonically non-decreasing, with the
download phase mapped into `(0, 80]` and consolidation into
`(80, 100]`; with two or more selected modules the counter restarts at
the bottom of the phase range for each module and regresses (see the
counterexample). -/
theorem C4_amended_single_module_monotone :
    ∀ (m : String), (m = "CCM" ∨ m = "PRR") →
    ∀ (ow : Bool) (worlds : Nat → Nat → TaskWorld) (parse : String → Option (List Row))
      (wk : Bool) (r : BatchResult),
    descargar_y_consolidar (some [m]) ow worlds parse wk = Except.ok r →
    List.Chain' (· ≤ ·) r.progress ∧ ∀ x ∈ r.progress, 0 < x ∧ x ≤ 100 := by
  intro m hm ow worlds parse wk r h
  rcases hm with rfl | rfl
  · rw [(batch_single_eq ow worlds parse wk).1] at h
    injection h with h'
    subst h'
    simp only [batchSingle, List.append_nil]
    exact single_module_progress_ok "descargas/CCM" (worlds 58) parse wk
  · rw [(batch_single_eq ow worlds parse wk).2] at h
    injection h with h'
    subst h'
    simp only [batchSingle, List.append_nil]
    exact single_module_progress_ok "descargas/PRR" (worlds 57) parse wk

/-- A two-module batch is the corresponding `batchDouble` value. -/
theorem batch_double_eq (ow : Bool) (worlds : Nat → Nat → TaskWorld)
    (parse : String → Option (List Row)) (wk : Bool) :
    descargar_y_consolidar (some ["CCM", "PRR"]) ow worlds parse wk =
      Except.ok (batchDouble worlds parse wk) := rfl

/-- Counterexample for C4 as stated: a full batch over the two modules
CCM and PRR emits the download progress ramp up to 80 for CCM and then
restarts at 80/56 for PRR — the sequence regresses. -/
theorem C4_multi_module_progress_regresses :
    ∃ r, descargar_y_consolidar (some ["CCM", "PRR"]) false (fun _ _ => worldOk)
        (fun _ => none) true = Except.ok r ∧ ¬ List.Chain' (· ≤ ·) r.progress := by
  refine ⟨batchDouble (fun _ _ => worldOk) (fun _ => none) true,
    batch_double_eq false (fun _ _ => worldOk) (fun _ => none) true, fun hch => ?_⟩
  have hcast : ((tareas.length : Nat) : ℚ) = 56 := by
    rw [show tareas.length = 56 from rfl]
    norm_num
  have hp : ∀ (folder : String) (w : Nat → TaskWorld),
      (descargar_en_paralelo tareas folder w).progress =
        (List.range tareas.length).map
          fun i : Nat => ((i + 1 : ℚ) / tareas.length) * 80 := fun _ _ => rfl
  simp only [batchDouble, hp, consolidar_progress_eq] at hch
  simp [Option.isSome_none] at hch
  rw [List.chain'_append] at hch
  obtain ⟨-, -, h12⟩ := hch
  have hx : ((tareas.length : ℚ)) / tareas.length * 80 ∈
      (((List.range tareas.length).map fun i : Nat =>
        ((i + 1 : ℚ) / tareas.length) * 80).getLast?) := by
    rw [paralelo_progress_getLast tareas.length (by decide)]
    rfl
  have hy : (1 / (tareas.length : ℚ)) * 80 ∈
      (((List.range tareas.length).map fun i : Nat =>
        ((i + 1 : ℚ) / tareas.length) * 80).head?) := by
    rw [paralelo_progress_head tareas.length (by decide)]
    rfl
  have hle := h12 _ hx _ hy
  rw [hcast] at hle
  norm_num at hle

/-- Witness for C4 amended at a concrete single-module batch. -/
theorem C4_amended_single_module_monotone_witness :
    ∃ r, descargar_y_consolidar (some ["CCM"]) false (fun _ _ => worldOk)
        (fun _ => none) true = Except.ok r ∧ List.Chain' (· ≤ ·) r.progress := by
  refine ⟨_, rfl, ?_⟩
  exact (C4_amended_single_module_monotone "CCM" (Or.inl rfl) false (fun _ _ => worldOk)
    (fun _ => none) true _ rfl).1

end Descarga
